import Mathlib

/-!
Shallow embedding of `seisflows/plugins/line_search/base.py` (class `Base`):
the line-search history engine of SeisFlows.  Step lengths, misfits and
gradient dot products are modelled as rationals; the Python lists become Lean
lists; the on-disk log file becomes an optional list of abstract lines
(`none` = file does not exist).  Python's slice semantics (negative indices,
clamping) are embedded explicitly as `pySlice`.
-/

namespace LineSearch

/-- Python slice index normalisation for a list of length `n`: a negative
index counts from the end, and the result is clamped to `[0, n]`. -/
def pyNorm (n : ℕ) (i : ℤ) : ℕ :=
  (min (max (if i < 0 then i + n else i) 0) n).toNat

/-- Python `l[a:b]` for integer (possibly negative) bounds. -/
def pySlice {α : Type} (l : List α) (a b : ℤ) : List α :=
  (l.take (pyNorm l.length b)).drop (pyNorm l.length a)

/-- Modelled from the spec: `count_zeros` from `seisflows.tools.array` is not
part of the provided sources; per the spec it returns the number of
zero-valued entries of its argument ("number of zero-length steps recorded so
far"). -/
def count_zeros (l : List ℚ) : ℕ :=
  (l.filter (fun v => v = 0)).length

/-- The mutable history state of `Base`: the four history lists and the trial
step counter, in the order `__init__` creates them. -/
structure LSState where
  func_vals : List ℚ
  step_lens : List ℚ
  gtg : List ℚ
  gtp : List ℚ
  step_count : ℕ
deriving DecidableEq, Repr

/-- The state `__init__` leaves behind: empty history, zero step count. -/
def initLS : LSState := ⟨[], [], [], [], 0⟩

/-- One line of the line-search log file: either of the two header lines, or
a data row holding the iteration column (`none` = written blank), the step
length and the function value. -/
inductive LogLine where
  | header1 : LogLine
  | header2 : LogLine
  | row : Option ℤ → Option ℚ → Option ℚ → LogLine
deriving DecidableEq, Repr

/-- `Base.write_log`: if `iter is None` or the file does not exist the file is
(re)created holding exactly the two header lines; otherwise one data row is
appended, with the iteration column blanked when `step_len` is given and
positive.  Returns the file content after the call. -/
def write_log (file : Option (List LogLine)) (iter : Option ℤ)
    (step_len : Option ℚ) (func_val : Option ℚ) : List LogLine :=
  if iter = none ∨ file = none then
    [LogLine.header1, LogLine.header2]
  else
    let it : Option ℤ :=
      match step_len with
      | some v => if 0 < v then none else iter
      | none => iter
    file.getD [] ++ [LogLine.row it step_len func_val]

/-- Number of data rows (non-header lines) in a log file content. -/
def dataRows (ls : List LogLine) : ℕ :=
  (ls.filter (fun l => match l with | LogLine.row _ _ _ => true | _ => false)).length

/-- The state updates performed by `Base.initialize`: reset the step counter
to 0 and append one entry to each of the four history lists. -/
def initializeLS (s : LSState) (step_len func_val gtg gtp : ℚ) : LSState :=
  { s with
    step_count := 0
    step_lens := s.step_lens ++ [step_len]
    func_vals := s.func_vals ++ [func_val]
    gtg := s.gtg ++ [gtg]
    gtp := s.gtp ++ [gtp] }

/-- The state updates performed by `Base.update`: append one entry each to
`step_lens` and `func_vals`; the trial counter is deliberately NOT touched
(the source has `self.step_count += 1` commented out, moved to the caller). -/
def updateLS (s : LSState) (step_len func_val : ℚ) : LSState :=
  { s with
    step_lens := s.step_lens ++ [step_len]
    func_vals := s.func_vals ++ [func_val] }

/-- `Base.clear_history`: empty all four lists, zero the step counter. -/
def clear_history (_ : LSState) : LSState :=
  { func_vals := [], step_lens := [], gtg := [], gtp := [], step_count := 0 }

/-- `Base.reset`: with at most one recorded step length, clear everything;
otherwise wind `gtg`/`gtp` back by one (`[:-1]`) and `step_lens`/`func_vals`
back by `step_count + 1` entries (`[:-1 * step_count - 1]`). -/
def reset (s : LSState) : LSState :=
  if s.step_lens.length ≤ 1 then
    clear_history s
  else
    { s with
      gtg := pySlice s.gtg 0 (-1)
      gtp := pySlice s.gtp 0 (-1)
      step_lens := pySlice s.step_lens 0 (-1 * (s.step_count : ℤ) - 1)
      func_vals := pySlice s.func_vals 0 (-1 * (s.step_count : ℤ) - 1) }

/-- The errors the embedded methods can signal. `notImplemented` models the
`NotImplementedError` raised by the abstract `Base.calculate_step`. -/
inductive LSError where
  | notImplemented : LSError
deriving DecidableEq, Repr

/-- `Base.calculate_step`: the abstract base implementation raises
`NotImplementedError` unconditionally. -/
def calculate_step (_ : LSState) : Except LSError (ℚ × ℤ) :=
  Except.error LSError.notImplemented

/-- The observable state of a `Base` instance: the in-memory history plus the
content of the log file (`none` when the file does not exist on disk). -/
structure Sys where
  ls : LSState
  log : Option (List LogLine)
deriving DecidableEq, Repr

/-- `Base.initialize` on the abstract base class: perform the history
updates, write the current evaluation to the log, then call
`calculate_step` (which raises on `Base` itself; the exception escapes after
the state and log updates have already happened). -/
def initializeBase (sys : Sys) (iter : ℤ) (step_len func_val gtg gtp : ℚ) :
    Sys × Except LSError (ℚ × ℤ) :=
  let ls := initializeLS sys.ls step_len func_val gtg gtp
  let log := write_log sys.log (some iter) (some step_len) (some func_val)
  (⟨ls, some log⟩, calculate_step ls)

/-- `Base.update` on the abstract base class: append to the history, write
the evaluation to the log, then call `calculate_step`. -/
def updateBase (sys : Sys) (iter : ℤ) (step_len func_val : ℚ) :
    Sys × Except LSError (ℚ × ℤ) :=
  let ls := updateLS sys.ls step_len func_val
  let log := write_log sys.log (some iter) (some step_len) (some func_val)
  (⟨ls, some log⟩, calculate_step ls)

/-- Stable comparison used to model `np.argsort` on `abs(x)`: index `a`
precedes index `b` when its key is strictly smaller, or the keys are equal
and `a` comes first in the original array (ties keep original order). -/
def leIdx (x : List ℚ) (a b : ℕ) : Prop :=
  |x.getD a 0| < |x.getD b 0| ∨ (|x.getD a 0| = |x.getD b 0| ∧ a ≤ b)

instance (x : List ℚ) : DecidableRel (leIdx x) := fun a b => by
  unfold leIdx; exact inferInstance

instance (x : List ℚ) : IsTotal ℕ (leIdx x) := by
  constructor
  intro a b
  rcases lt_trichotomy (|x.getD a 0|) (|x.getD b 0|) with h | h | h
  · exact Or.inl (Or.inl h)
  · rcases Nat.le_total a b with hab | hab
    · exact Or.inl (Or.inr ⟨h, hab⟩)
    · exact Or.inr (Or.inr ⟨h.symm, hab⟩)
  · exact Or.inr (Or.inl h)

instance (x : List ℚ) : IsTrans ℕ (leIdx x) := by
  constructor
  intro a b c hab hbc
  rcases hab with hab | ⟨hab, hab'⟩
  · rcases hbc with hbc | ⟨hbc, _⟩
    · exact Or.inl (hab.trans hbc)
    · exact Or.inl (hbc ▸ hab)
  · rcases hbc with hbc | ⟨hbc, hbc'⟩
    · exact Or.inl (hab ▸ hbc)
    · exact Or.inr ⟨hab.trans hbc, hab'.trans hbc'⟩

/-- `abs(x).argsort()` modelled as a stable argsort: the indices
`0, ..., len(x)-1` sorted by absolute value of the entry, ties keeping the
original order. -/
def argsortAbs (x : List ℚ) : List ℕ :=
  List.insertionSort (leIdx x) (List.range x.length)

/-- NumPy fancy indexing `l[idx]`: pick the listed positions. -/
def npIndex (l : List ℚ) (idx : List ℕ) : List ℚ :=
  idx.map (fun i => l.getD i 0)

/-- The tuple `Base.search_history` returns: current-search step lengths `x`
and misfits `f`, the full `gtg`/`gtp` histories, the step count `i`, and
`j = count_zeros(step_lens) - 1` (an `int` in Python, so it may be `-1`). -/
structure SearchRecord where
  x : List ℚ
  f : List ℚ
  gtg : List ℚ
  gtp : List ℚ
  i : ℕ
  j : ℤ
deriving DecidableEq, Repr

/-- `Base.search_history`: slice the last `step_count + 1` evaluations out of
the history (`[k - i - 1 : k]` with `k = len(step_lens)`), optionally sorting
`x` and `f` jointly by `abs(x).argsort()`. -/
def search_history (s : LSState) (sort : Bool) : SearchRecord :=
  let i := s.step_count
  let j : ℤ := (count_zeros s.step_lens : ℤ) - 1
  let k := s.step_lens.length
  let x := pySlice s.step_lens ((k : ℤ) - i - 1) k
  let f := pySlice s.func_vals ((k : ℤ) - i - 1) k
  if sort then
    { x := npIndex x (argsortAbs x), f := npIndex f (argsortAbs x),
      gtg := s.gtg, gtp := s.gtp, i := i, j := j }
  else
    { x := x, f := f, gtg := s.gtg, gtp := s.gtp, i := i, j := j }

/-- A call of `Base.search_history` viewed as a method on the state: it
returns the record together with the state, which the method body never
assigns to (it only reads the five attributes). -/
def searchHistoryCall (s : LSState) (sort : Bool) : SearchRecord × LSState :=
  (search_history s sort, s)

/-- The documented contract of `np.argsort` (any `kind`, including the
default `quicksort`) applied to `abs(x)`: the result is some permutation of
the index range `0, ..., len(x)-1` that orders the keys `|x[i]|`
non-decreasingly.  Stability is NOT part of this contract: the relative
order of indices with equal keys is unspecified. -/
def ArgsortSpec (x : List ℚ) (p : List ℕ) : Prop :=
  p.Perm (List.range x.length) ∧
  List.Pairwise (fun a b => |x.getD a 0| ≤ |x.getD b 0|) p

instance (x : List ℚ) (p : List ℕ) : Decidable (ArgsortSpec x p) := by
  unfold ArgsortSpec; exact inferInstance

/-- `Base.search_history` under the documented `np.argsort` contract, as a
relation between the state and the possible return values.  With
`sort=False` the result is the plain slice record.  With `sort=True` the two
`abs(x).argsort()` calls see the same unchanged `x` (and the library call is
deterministic within a run), so a single permutation `p` allowed by
`ArgsortSpec` is applied to `x` and `f` alike. -/
def SearchHistoryResult (s : LSState) (sort : Bool) (r : SearchRecord) : Prop :=
  match sort with
  | false => r = search_history s false
  | true =>
    ∃ p : List ℕ, ArgsortSpec (search_history s false).x p ∧
      r = { x := npIndex (search_history s false).x p
            f := npIndex (search_history s false).f p
            gtg := s.gtg, gtp := s.gtp, i := s.step_count
            j := (count_zeros s.step_lens : ℤ) - 1 }

/-- The two parallel-length invariants of the history lists. -/
def Inv (s : LSState) : Prop :=
  s.step_lens.length = s.func_vals.length ∧ s.gtg.length = s.gtp.length

/-- States reachable from the freshly constructed instance by any
interleaving of the four mutating operations. -/
inductive Reachable : LSState → Prop where
  | base : Reachable initLS
  | stepInit {s} (a b g p : ℚ) :
      Reachable s → Reachable (initializeLS s a b g p)
  | stepUpdate {s} (a b : ℚ) : Reachable s → Reachable (updateLS s a b)
  | stepClear {s} : Reachable s → Reachable (clear_history s)
  | stepReset {s} : Reachable s → Reachable (reset s)

/-! ### Helper lemmas about Python slicing -/

theorem pyNorm_le (n : ℕ) (i : ℤ) : pyNorm n i ≤ n := by
  unfold pyNorm; split <;> omega

theorem pyNorm_zero (n : ℕ) : pyNorm n 0 = 0 := by
  unfold pyNorm; split <;> omega

theorem pyNorm_neg (n c : ℕ) (h : 1 ≤ c) : pyNorm n (-(c : ℤ)) = n - c := by
  unfold pyNorm; split <;> omega

theorem pyNorm_coe (n a : ℕ) : pyNorm n (a : ℤ) = min a n := by
  unfold pyNorm; split <;> omega

theorem pySlice_length {α : Type} (l : List α) (a b : ℤ) :
    (pySlice l a b).length = pyNorm l.length b - pyNorm l.length a := by
  have hb := pyNorm_le l.length b
  simp only [pySlice, List.length_drop, List.length_take]
  omega

theorem pySlice_zero_neg {α : Type} (l : List α) (c : ℕ) (h : 1 ≤ c) :
    pySlice l 0 (-(c : ℤ)) = l.take (l.length - c) := by
  unfold pySlice
  rw [pyNorm_zero, pyNorm_neg _ _ h, List.drop_zero]

theorem pySlice_coe_len {α : Type} (l : List α) (a : ℕ) :
    pySlice l (a : ℤ) (l.length : ℤ) = l.drop a := by
  unfold pySlice
  rw [pyNorm_coe, pyNorm_coe, Nat.min_self, List.take_length]
  rcases Nat.le_total a l.length with h | h
  · rw [Nat.min_eq_left h]
  · rw [Nat.min_eq_right h, List.drop_eq_nil_of_le le_rfl,
      List.drop_eq_nil_of_le h]

theorem reset_of_many {s : LSState} (h : 1 < s.step_lens.length) :
    reset s =
      { s with
        gtg := s.gtg.dropLast
        gtp := s.gtp.dropLast
        step_lens := s.step_lens.take (s.step_lens.length - (s.step_count + 1))
        func_vals := s.func_vals.take (s.func_vals.length - (s.step_count + 1)) } := by
  have hidx : (-1 * (s.step_count : ℤ) - 1) = -(((s.step_count + 1 : ℕ)) : ℤ) := by
    push_cast; ring
  unfold reset
  rw [if_neg (by omega)]
  rw [hidx, pySlice_zero_neg _ _ (by omega), pySlice_zero_neg _ _ (by omega)]
  have h1 : (-1 : ℤ) = -((1 : ℕ) : ℤ) := by norm_num
  rw [h1, pySlice_zero_neg _ _ le_rfl, pySlice_zero_neg _ _ le_rfl,
    ← List.dropLast_eq_take, ← List.dropLast_eq_take]

/-! ### Helper lemmas about the argsort model -/

theorem argsortAbs_perm (x : List ℚ) :
    (argsortAbs x).Perm (List.range x.length) :=
  List.perm_insertionSort _ _

theorem argsortAbs_pairwise (x : List ℚ) :
    List.Pairwise (leIdx x) (argsortAbs x) :=
  List.sorted_insertionSort _ _

theorem npIndex_argsort_sorted (x : List ℚ) :
    List.Pairwise (fun a b : ℚ => |a| ≤ |b|) (npIndex x (argsortAbs x)) := by
  unfold npIndex
  refine List.Pairwise.map _ ?_ (argsortAbs_pairwise x)
  intro a b hab
  rcases hab with h1 | ⟨h1, _⟩
  · exact le_of_lt h1
  · exact le_of_eq h1

/-! ### Plain unfoldings of `search_history` -/

theorem search_history_false_def (s : LSState) :
    search_history s false =
      { x := pySlice s.step_lens ((s.step_lens.length : ℤ) - s.step_count - 1)
               s.step_lens.length
        f := pySlice s.func_vals ((s.step_lens.length : ℤ) - s.step_count - 1)
               s.step_lens.length
        gtg := s.gtg, gtp := s.gtp, i := s.step_count
        j := (count_zeros s.step_lens : ℤ) - 1 } := rfl

theorem search_history_true_def (s : LSState) :
    search_history s true =
      { x := npIndex (search_history s false).x
               (argsortAbs (search_history s false).x)
        f := npIndex (search_history s false).f
               (argsortAbs (search_history s false).x)
        gtg := s.gtg, gtp := s.gtp, i := s.step_count
        j := (count_zeros s.step_lens : ℤ) - 1 } := rfl


/-! ### Claim theorems -/

/-- C1: along every sequence of `initialize`/`update`/`clear_history`/`reset`
calls starting from the freshly constructed state, the history lists keep
`len(step_lens) = len(func_vals)` and `len(gtg) = len(gtp)`. -/
theorem history_lengths_invariant (s : LSState) (h : Reachable s) : Inv s := by
  induction h with
  | base => exact ⟨rfl, rfl⟩
  | stepInit a b g p _ ih =>
    obtain ⟨h1, h2⟩ := ih
    simp only [Inv, initializeLS, List.length_append, List.length_cons,
      List.length_nil]
    omega
  | stepUpdate a b _ ih =>
    obtain ⟨h1, h2⟩ := ih
    simp only [Inv, updateLS, List.length_append, List.length_cons,
      List.length_nil]
    omega
  | stepClear _ _ => exact ⟨rfl, rfl⟩
  | stepReset hr ih =>
    obtain ⟨h1, h2⟩ := ih
    unfold reset
    split
    · exact ⟨rfl, rfl⟩
    · exact ⟨by simp only [pySlice_length, h1], by simp only [pySlice_length, h2]⟩

/-- C1 witness: a concrete reachable state satisfies the invariant. -/
theorem history_lengths_invariant_witness :
    Inv (updateLS (initializeLS initLS 0 1 2 3) 4 5) :=
  history_lengths_invariant _
    (Reachable.stepUpdate 4 5 (Reachable.stepInit 0 1 2 3 Reachable.base))

/-- C5: `update` appends exactly one entry to `step_lens` and one to
`func_vals` and leaves `step_count`, `gtg` and `gtp` unchanged;
`search_history` never modifies the state either; `initialize` sets
`step_count` to 0. -/
theorem update_frame_effect (s : LSState) (sl fv : ℚ) :
    (updateLS s sl fv).step_lens = s.step_lens ++ [sl] ∧
    (updateLS s sl fv).func_vals = s.func_vals ++ [fv] ∧
    (updateLS s sl fv).step_count = s.step_count ∧
    (updateLS s sl fv).gtg = s.gtg ∧
    (updateLS s sl fv).gtp = s.gtp ∧
    (∀ b, (searchHistoryCall s b).2.step_count = s.step_count) ∧
    (∀ a b g p, (initializeLS s a b g p).step_count = 0) :=
  ⟨rfl, rfl, rfl, rfl, rfl, fun _ => rfl, fun _ _ _ _ => rfl⟩

/-- C8: a `search_history` call leaves the state untouched, so calling it
twice in succession returns identical results. -/
theorem search_history_idempotent (s : LSState) (b : Bool) :
    (searchHistoryCall s b).2 = s ∧
    (searchHistoryCall (searchHistoryCall s b).2 b).1 = (searchHistoryCall s b).1 :=
  ⟨rfl, rfl⟩

/-- C9: the abstract `calculate_step` signals `NotImplementedError` on every
state, and `initialize`/`update` on the bare base class fail with that error
after the history has already been appended. -/
theorem calculate_step_abstract (sys : Sys) (it : ℤ) (a b g p : ℚ) :
    (∀ t : LSState, calculate_step t = Except.error LSError.notImplemented) ∧
    (initializeBase sys it a b g p).2 = Except.error LSError.notImplemented ∧
    (initializeBase sys it a b g p).1.ls.step_lens = sys.ls.step_lens ++ [a] ∧
    (initializeBase sys it a b g p).1.ls.func_vals = sys.ls.func_vals ++ [b] ∧
    (initializeBase sys it a b g p).1.ls.gtg = sys.ls.gtg ++ [g] ∧
    (initializeBase sys it a b g p).1.ls.gtp = sys.ls.gtp ++ [p] ∧
    (updateBase sys it a b).2 = Except.error LSError.notImplemented ∧
    (updateBase sys it a b).1.ls.step_lens = sys.ls.step_lens ++ [a] ∧
    (updateBase sys it a b).1.ls.func_vals = sys.ls.func_vals ++ [b] :=
  ⟨fun _ => rfl, rfl, rfl, rfl, rfl, rfl, rfl, rfl, rfl⟩

/-- C10: when more than one step length is recorded, `reset` leaves the trial
counter unchanged; `clear_history` and `initialize` are the operations that
return it to 0. -/
theorem reset_keeps_step_count (s : LSState) :
    (1 < s.step_lens.length → (reset s).step_count = s.step_count) ∧
    (clear_history s).step_count = 0 ∧
    (∀ a b g p, (initializeLS s a b g p).step_count = 0) := by
  refine ⟨fun h => ?_, rfl, fun _ _ _ _ => rfl⟩
  unfold reset
  rw [if_neg (by omega)]

/-- C10 witness: a two-entry history with trial counter 5 keeps it at 5
across `reset`. -/
theorem reset_keeps_step_count_witness :
    (reset ⟨[5, 6], [0, 1], [9], [8], 5⟩).step_count = 5 :=
  (reset_keeps_step_count _).1 (by decide)


/-- C2: `reset` with at most one recorded step length clears all four history
lists and the trial counter; otherwise it drops exactly the last entry of
`gtg`/`gtp` and exactly the last `step_count + 1` entries of
`step_lens`/`func_vals`, leaving the prefix from before the aborted search. -/
theorem reset_truncates (s : LSState) :
    (s.step_lens.length ≤ 1 → reset s = initLS) ∧
    (1 < s.step_lens.length →
      (reset s).gtg = s.gtg.dropLast ∧
      (reset s).gtp = s.gtp.dropLast ∧
      (reset s).step_lens =
        s.step_lens.take (s.step_lens.length - (s.step_count + 1)) ∧
      (reset s).func_vals =
        s.func_vals.take (s.func_vals.length - (s.step_count + 1)) ∧
      (1 ≤ s.gtg.length → (reset s).gtg.length = s.gtg.length - 1) ∧
      (1 ≤ s.gtp.length → (reset s).gtp.length = s.gtp.length - 1) ∧
      (s.step_count + 1 ≤ s.step_lens.length →
        (reset s).step_lens.length =
          s.step_lens.length - (s.step_count + 1) ∧
        (reset s).step_lens ++
          s.step_lens.drop (s.step_lens.length - (s.step_count + 1)) =
          s.step_lens ∧
        (s.step_lens.drop (s.step_lens.length - (s.step_count + 1))).length =
          s.step_count + 1) ∧
      (s.step_count + 1 ≤ s.func_vals.length →
        (reset s).func_vals.length =
          s.func_vals.length - (s.step_count + 1) ∧
        (reset s).func_vals ++
          s.func_vals.drop (s.func_vals.length - (s.step_count + 1)) =
          s.func_vals ∧
        (s.func_vals.drop (s.func_vals.length - (s.step_count + 1))).length =
          s.step_count + 1)) := by
  constructor
  · intro h
    unfold reset
    rw [if_pos h]
    rfl
  · intro h
    rw [reset_of_many h]
    refine ⟨rfl, rfl, rfl, rfl, fun _ => List.length_dropLast _,
      fun _ => List.length_dropLast _, fun hc => ?_, fun hc => ?_⟩
    · refine ⟨?_, List.take_append_drop _ _, ?_⟩
      · simp only [List.length_take]
        omega
      · simp only [List.length_drop]
        omega
    · refine ⟨?_, List.take_append_drop _ _, ?_⟩
      · simp only [List.length_take]
        omega
      · simp only [List.length_drop]
        omega

/-- C2 witness: both branches of `reset` evaluated on concrete histories. -/
theorem reset_truncates_witness :
    reset ⟨[5], [0], [9], [8], 0⟩ = initLS ∧
    (reset ⟨[5, 6, 7, 8], [0, 1, 2, 3], [9, 10], [8, 11], 2⟩).gtg =
      ([9, 10] : List ℚ).dropLast ∧
    (reset ⟨[5, 6, 7, 8], [0, 1, 2, 3], [9, 10], [8, 11], 2⟩).step_lens.length =
      ([0, 1, 2, 3] : List ℚ).length - (2 + 1) :=
  ⟨(reset_truncates _).1 (by decide),
   ((reset_truncates _).2 (by decide)).1,
   (((reset_truncates _).2 (by decide)).2.2.2.2.2.2.1 (by decide)).1⟩

/-- C4: without sorting, `search_history` returns as `x` and `f` exactly the
last `step_count + 1` entries of `step_lens` and `func_vals`, returns the
step count as `i`, and returns `j = count_zeros(step_lens) - 1`. -/
theorem search_history_tail (s : LSState)
    (hlen : s.func_vals.length = s.step_lens.length)
    (hcnt : s.step_count + 1 ≤ s.step_lens.length) :
    (search_history s false).x =
      s.step_lens.drop (s.step_lens.length - (s.step_count + 1)) ∧
    (search_history s false).f =
      s.func_vals.drop (s.func_vals.length - (s.step_count + 1)) ∧
    (search_history s false).x.length = s.step_count + 1 ∧
    (search_history s false).f.length = s.step_count + 1 ∧
    (search_history s false).i = s.step_count ∧
    (search_history s false).j = (count_zeros s.step_lens : ℤ) - 1 := by
  have hidx : ((s.step_lens.length : ℤ) - s.step_count - 1) =
      (((s.step_lens.length - (s.step_count + 1) : ℕ)) : ℤ) := by
    omega
  have hx : (search_history s false).x =
      s.step_lens.drop (s.step_lens.length - (s.step_count + 1)) := by
    rw [search_history_false_def, hidx]
    exact pySlice_coe_len _ _
  have hf : (search_history s false).f =
      s.func_vals.drop (s.func_vals.length - (s.step_count + 1)) := by
    rw [search_history_false_def]
    simp only
    rw [hidx, ← hlen]
    exact pySlice_coe_len _ _
  refine ⟨hx, hf, ?_, ?_, rfl, rfl⟩
  · rw [hx, List.length_drop]
    omega
  · rw [hf, List.length_drop]
    omega

/-- C4 witness: a concrete state with a two-trial current search. -/
theorem search_history_tail_witness :
    (search_history ⟨[5, 6, 7], [0, 1, 2], [9], [8], 1⟩ false).i = 1 :=
  (search_history_tail _ (by decide) (by decide)).2.2.2.2.1


/-- Consistency: the executable embedding of `search_history` (which picks
the stable argsort result) returns one of the results permitted by the
documented `np.argsort` contract. -/
theorem search_history_true_isResult (s : LSState) :
    SearchHistoryResult s true (search_history s true) := by
  refine ⟨argsortAbs (search_history s false).x, ⟨argsortAbs_perm _, ?_⟩, ?_⟩
  · refine (argsortAbs_pairwise _).imp ?_
    intro a b hab
    rcases hab with h1 | ⟨h1, _⟩
    · exact le_of_lt h1
    · exact le_of_eq h1
  · exact search_history_true_def s

/-- C3 counterexample: the stability conjunct of the claim fails under the
documented `np.argsort` contract.  On the state whose current-search slice is
`x = [1, -1]` (two entries of equal absolute value, `1` first), the
permutation `[1, 0]` satisfies the argsort contract, so the record with
`x = [-1, 1]` and `f = [8, 7]` is a permitted return of
`search_history(sort=True)` — yet its tie order is the reverse of the
original order (`leIdx` fails on `[1, 0]`), and it differs from the
stably-sorted record. -/
theorem search_history_tie_counterexample :
    ArgsortSpec (search_history ⟨[7, 8], [1, -1], [], [], 1⟩ false).x [1, 0] ∧
    ¬ List.Pairwise (leIdx (search_history ⟨[7, 8], [1, -1], [], [], 1⟩ false).x)
        [1, 0] ∧
    SearchHistoryResult ⟨[7, 8], [1, -1], [], [], 1⟩ true
      ⟨[-1, 1], [8, 7], [], [], 1, -1⟩ ∧
    (⟨[-1, 1], [8, 7], [], [], 1, -1⟩ : SearchRecord) ≠
      search_history ⟨[7, 8], [1, -1], [], [], 1⟩ true :=
  ⟨by decide, by decide, ⟨[1, 0], by decide, by decide⟩, by decide⟩

/-- C3 (amended): every return of `search_history(sort=True)` permitted by
the documented `np.argsort` contract carries one and the same index
permutation `p` applied to `x` and `f` (each returned `f[i]` is the misfit
originally paired with the returned `x[i]`), `p` being a permutation of the
positions of the unsorted slice, and the returned `x` is non-decreasing in
absolute value; the order among entries of equal absolute value is
unspecified. -/
theorem search_history_sort_amended (s : LSState) (r : SearchRecord)
    (h : SearchHistoryResult s true r) :
    ∃ p : List ℕ,
      p.Perm (List.range (search_history s false).x.length) ∧
      r.x = npIndex (search_history s false).x p ∧
      r.f = npIndex (search_history s false).f p ∧
      List.Pairwise (fun a b : ℚ => |a| ≤ |b|) r.x := by
  obtain ⟨p, ⟨hperm, hsort⟩, rfl⟩ := h
  refine ⟨p, hperm, rfl, rfl, ?_⟩
  exact List.Pairwise.map _ (fun a b hab => hab) hsort

/-- C3 witness: the amended theorem applied to a concrete permitted result
(the identity permutation on an already sorted two-trial slice). -/
theorem search_history_sort_amended_witness :
    ∃ p : List ℕ,
      p.Perm (List.range
        (search_history ⟨[5, 6, 7], [0, 1, 2], [9], [8], 1⟩ false).x.length) ∧
      (⟨[1, 2], [6, 7], [9], [8], 1, 0⟩ : SearchRecord).x =
        npIndex (search_history ⟨[5, 6, 7], [0, 1, 2], [9], [8], 1⟩ false).x p ∧
      (⟨[1, 2], [6, 7], [9], [8], 1, 0⟩ : SearchRecord).f =
        npIndex (search_history ⟨[5, 6, 7], [0, 1, 2], [9], [8], 1⟩ false).f p ∧
      List.Pairwise (fun a b : ℚ => |a| ≤ |b|)
        (⟨[1, 2], [6, 7], [9], [8], 1, 0⟩ : SearchRecord).x :=
  search_history_sort_amended _ _ ⟨[0, 1], by decide, by decide⟩

/-- C6: `write_log` recreates the file with exactly the two header lines when
the file is missing or no iteration number is given; otherwise it appends
exactly one data row, whose iteration column is blank when `step_len > 0` and
carries the iteration number when `step_len = 0`. -/
theorem write_log_cases (file : Option (List LogLine)) (it : Option ℤ)
    (sl fv : Option ℚ) :
    ((it = none ∨ file = none) →
      write_log file it sl fv = [LogLine.header1, LogLine.header2]) ∧
    (∀ c n, file = some c → it = some n →
      write_log file it sl fv =
        c ++ [LogLine.row
          (match sl with
           | some v => if 0 < v then none else some n
           | none => some n) sl fv] ∧
      (∀ v : ℚ, sl = some v → 0 < v →
        write_log file it sl fv = c ++ [LogLine.row none sl fv]) ∧
      (sl = some 0 →
        write_log file it sl fv = c ++ [LogLine.row (some n) sl fv])) := by
  constructor
  · intro h
    unfold write_log
    rw [if_pos h]
  · intro c n hc hn
    subst hc hn
    refine ⟨?_, ?_, ?_⟩
    · unfold write_log
      rw [if_neg (by simp)]
      rfl
    · intro v hv hvpos
      subst hv
      unfold write_log
      rw [if_neg (by simp)]
      simp [if_pos hvpos]
    · intro hv
      subst hv
      unfold write_log
      rw [if_neg (by simp)]
      norm_num

/-- C6 witness: the three behaviours on concrete files and arguments. -/
theorem write_log_cases_witness :
    write_log none none none none = [LogLine.header1, LogLine.header2] ∧
    write_log (some [LogLine.header1, LogLine.header2]) (some 3) (some 0)
        (some 7) =
      [LogLine.header1, LogLine.header2] ++
        [LogLine.row (some 3) (some 0) (some 7)] ∧
    write_log (some []) (some 3) (some 2) (some 7) =
      [] ++ [LogLine.row none (some 2) (some 7)] :=
  ⟨(write_log_cases none none none none).1 (Or.inl rfl),
   (((write_log_cases _ _ _ _).2 _ 3 rfl rfl).2.2 rfl),
   (((write_log_cases _ _ _ _).2 _ 3 rfl rfl).2.1 2 rfl (by norm_num))⟩

/-- C7 counterexample: when the log file does not exist at the time of the
call, the evaluation recorded by `initialize` produces a log holding only the
two header lines — zero data rows, not one. -/
theorem log_row_missing_file_counterexample :
    (initializeBase ⟨initLS, none⟩ 1 0 1 1 1).1.log =
      some [LogLine.header1, LogLine.header2] ∧
    dataRows [LogLine.header1, LogLine.header2] = 0 :=
  ⟨rfl, rfl⟩

/-- C7 (amended): when the log file exists, every evaluation recorded via
`initialize` or `update` appends exactly one data row to it. -/
theorem log_row_per_evaluation (sys : Sys) (c : List LogLine)
    (hc : sys.log = some c) (it : ℤ) (a b g p : ℚ) :
    dataRows ((initializeBase sys it a b g p).1.log.getD []) = dataRows c + 1 ∧
    dataRows ((updateBase sys it a b).1.log.getD []) = dataRows c + 1 := by
  constructor <;>
    · simp only [initializeBase, updateBase, write_log, hc, Option.getD_some,
        dataRows]
      rw [if_neg (by simp)]
      simp [List.filter_append]

/-- C7 witness: appending to an existing header-only file adds one row. -/
theorem log_row_per_evaluation_witness :
    dataRows ((initializeBase
        ⟨initLS, some [LogLine.header1, LogLine.header2]⟩ 1 0 1 1 1).1.log.getD [])
      = dataRows [LogLine.header1, LogLine.header2] + 1 :=
  (log_row_per_evaluation _ _ rfl 1 0 1 1 1).1

end LineSearch
